import Mathlib

/-!
# Verification of the AeroSync regulations extraction engine

Shallow embedding of `regulations.py`: document model, header validation,
section boundary extraction, ECAR parsing, and subsection decomposition,
together with theorems settling the specification's claims.

Python strings are modelled as Lean `String`; Python `re` patterns are
modelled as executable character-list matchers reproducing the exact
(leftmost, ordered-alternation, greedy) semantics of each pattern on the
inputs the program feeds them.
-/

/-! ## Python string primitives -/

/-- Python whitespace class `\s` (ASCII part, the only part arising here). -/
def isPySpace (c : Char) : Bool :=
  c = ' ' || c = '\t' || c = '\n' || c = '\r' || c = '\x0b' || c = '\x0c'

/-- Python `str.strip()`: drop whitespace from both ends. -/
def pystrip (s : String) : String :=
  String.mk (((s.data.dropWhile isPySpace).reverse.dropWhile isPySpace).reverse)

/-- Python `text.split('\n')` (structurally recursive so that concrete
documents evaluate inside the kernel; Lean's own splitter is defined by
well-founded recursion and does not reduce there). -/
def splitLinesAux : List Char → List Char → List String
  | [], acc => [String.mk acc.reverse]
  | c :: cs, acc =>
    if c = '\n' then String.mk acc.reverse :: splitLinesAux cs []
    else splitLinesAux cs (c :: acc)

def splitLines (s : String) : List String := splitLinesAux s.data []

/-- `f` holds at some suffix of the character list (regex search positions). -/
def existsPos (f : List Char → Bool) : List Char → Bool
  | [] => f []
  | c :: cs => f (c :: cs) || existsPos f cs

/-- Python `needle in hay` (substring containment). -/
def containsSubstr (hay needle : String) : Bool :=
  existsPos (fun suf => needle.data.isPrefixOf suf) hay.data

/-- ASCII decimal digit, Python `\d` as fed here. -/
def isDigitChar (c : Char) : Bool := '0' ≤ c && c ≤ '9'

/-- ASCII letter `[A-Za-z]`. -/
def isAsciiLetter (c : Char) : Bool := ('a' ≤ c && c ≤ 'z') || ('A' ≤ c && c ≤ 'Z')

/-! ## Regex matchers from `regulations.py` -/

/-- `re.match(r'^\d+\.\d+\s+[A-Za-z]', line)` (the `ecar_pattern` of
`is_valid_header`): digits, a dot, digits, whitespace, then a letter;
a prefix match, the rest of the line is unconstrained. -/
def matchesEcarHeader (s : String) : Bool :=
  match s.data with
  | [] => false
  | c :: _ =>
    isDigitChar c &&
      (let r1 := s.data.dropWhile isDigitChar
       match r1 with
       | '.' :: r2 =>
         (match r2 with
          | d :: _ => isDigitChar d &&
              (let r3 := r2.dropWhile isDigitChar
               let r4 := r3.dropWhile isPySpace
               decide (r3 ≠ r4) &&
                 (match r4 with
                  | e :: _ => isAsciiLetter e
                  | [] => false))
          | [] => false)
       | _ => false)

/-- Tail of `\d+(?:\.\d+)*$`: `inGroup` records whether at least one digit
of the current dot-separated group has been read. -/
def numPathGo : List Char → Bool → Bool
  | [], inGroup => inGroup
  | c :: cs, inGroup =>
    if isDigitChar c then numPathGo cs true
    else if c = '.' then inGroup && numPathGo cs false
    else false

/-- `\d+(?:\.\d+)*` matched against the whole of `cs`. -/
def numPathMatch (cs : List Char) : Bool := numPathGo cs false

/-- The eight IOSA section-type codes, in the pattern's alternation order. -/
def sectionCodes : List String :=
  ["ORG", "FLT", "DSP", "MNT", "CAB", "GRH", "CGO", "SEC"]

/-- `re.match(r'^(ORG|FLT|DSP|MNT|CAB|GRH|CGO|SEC)\s*(\d+(?:\.\d+)*)$', line)`:
returns the captured section-type code when the whole line matches. -/
def iosaCodeOf (line : String) : Option String :=
  sectionCodes.findSome? fun c =>
    if c.data.isPrefixOf line.data then
      let rest := line.data.drop c.data.length
      if numPathMatch (rest.dropWhile isPySpace) then some c else none
    else none

/-- The line matches the full IOSA header pattern. -/
def matchesIosaHeader (line : String) : Bool := (iosaCodeOf line).isSome

/-- `re.match(r'^(\d+\.\d+)\s+(.+)$', line)` (the `section_pattern` of
`parse_ecar_sections`), applied — as in the source — only to stripped,
newline-free lines: digits, a dot, digits, at least one whitespace
character, and a nonempty remainder. -/
def sectionPatternMatch (s : String) : Bool :=
  match s.data with
  | [] => false
  | c :: _ =>
    isDigitChar c &&
      (let r1 := s.data.dropWhile isDigitChar
       match r1 with
       | '.' :: r2 =>
         (match r2 with
          | d :: _ => isDigitChar d &&
              (let r3 := r2.dropWhile isDigitChar
               let r4 := r3.dropWhile isPySpace
               decide (r3 ≠ r4) && decide (r4 ≠ []))
          | [] => false)
       | _ => false)

/-- Case-insensitive literal match of `pat` (given lowercase) at the head,
returning the rest. -/
def ciStartsWith (pat : List Char) (cs : List Char) : Option (List Char) :=
  match pat, cs with
  | [], rest => some rest
  | _ :: _, [] => none
  | p :: ps, c :: cs' => if c.toLower = p then ciStartsWith ps cs' else none

/-- `ECAR\s+Part` (case-insensitive) matches at the head of `cs`. -/
def ecarPartAt (cs : List Char) : Bool :=
  match ciStartsWith ['e', 'c', 'a', 'r'] cs with
  | some r =>
    let r2 := r.dropWhile isPySpace
    decide (r ≠ r2) && (ciStartsWith ['p', 'a', 'r', 't'] r2).isSome
  | none => false

/-- `re.search(r'ECAR\s+Part', text, re.IGNORECASE)`. -/
def containsEcarPart (s : String) : Bool := existsPos ecarPartAt s.data

/-! ## Data model

A `Page` carries the plain text returned by `page.get_text("text")` and the
block/line/span structure returned by `page.get_text("dict")["blocks"]`; a
`Document` carries its pages and its navigable outline (`doc.get_toc()`). -/

structure Span where
  text : String
  flags : Nat
deriving Repr, DecidableEq

structure LineBlock where
  spans : List Span
deriving Repr, DecidableEq

structure Block where
  lines : List LineBlock
deriving Repr, DecidableEq

structure Page where
  text : String
  blocks : List Block
deriving Repr, DecidableEq

structure TocEntry where
  level : Nat
  title : String
  page : Nat
deriving Repr, DecidableEq

structure Document where
  pages : List Page
  toc : List TocEntry
deriving Repr, DecidableEq

def emptyPage : Page := { text := "", blocks := [] }

structure Subsec where
  title : String
  content : String
deriving Repr, DecidableEq

structure Section where
  title : String
  level : Option Nat
  page : Nat
  text : String
  subsections : List Subsec
deriving Repr, DecidableEq

/-! ## `get_valid_page_range` and `detect_document_type` -/

/-- `get_valid_page_range(section_type)`. -/
def get_valid_page_range (section_type : String) : Option (Nat × Nat) :=
  if section_type = "ORG" then some (52, 114)
  else if section_type = "FLT" then some (114, 299)
  else if section_type = "DSP" then some (299, 403)
  else if section_type = "MNT" then some (403, 490)
  else if section_type = "CAB" then some (490, 558)
  else if section_type = "GRH" then some (558, 620)
  else if section_type = "CGO" then some (620, 656)
  else if section_type = "SEC" then some (656, 700)
  else none

inductive DocType where
  | ecar
  | iosa
  | other
deriving Repr, DecidableEq

/-- `detect_document_type(doc)`: classify from the first page's text.
(The Python raises `IndexError` on a 0-page document; theorems about whole
documents therefore assume `doc.pages ≠ []`.) -/
def detect_document_type (doc : Document) : DocType :=
  match doc.pages with
  | [] => DocType.other
  | p :: _ =>
    if containsEcarPart p.text then DocType.ecar
    else if sectionCodes.any (fun c => containsSubstr p.text c) then DocType.iosa
    else DocType.other

/-! ## `is_valid_header` -/

/-- The span scan at the end of `is_valid_header`: some span on the page has
trimmed text equal to `line` and the bold flag (`flags & 2**2`) set. -/
def hasBoldSpan (page : Page) (line : String) : Bool :=
  page.blocks.any fun b =>
    b.lines.any fun lb =>
      lb.spans.any fun sp => pystrip sp.text = line && (sp.flags &&& 4) != 0

/-- `is_valid_header(line, ..., page, page_num)` (the unused `page_text`,
`line_index` and `lines` parameters of the source are omitted). -/
def is_valid_header (line0 : String) (page : Page) (page_num : Nat) : Bool :=
  let line := pystrip line0
  if line = "" then false
  else if matchesEcarHeader line then true
  else
    match iosaCodeOf line with
    | none => false
    | some section_type =>
      match get_valid_page_range section_type with
      | none => false
      | some (lo, hi) =>
        if lo ≤ page_num + 1 && page_num + 1 ≤ hi then hasBoldSpan page line
        else false

/-! ## `parse_small_subsections`

`re.split(r'(?:(?:^|\n)([0-9]+(?:\.[0-9]+)*|[a-zA-Z]\)|[ivxlc]+)\s*)', text)`
followed by the odd/even pairing loop.  The splitter is reproduced as a
leftmost-match scan: a match fires at position 0 (`^`) or at a newline,
captures one label by ordered alternation, then greedily eats `\s*`. -/

def isRomanChar (c : Char) : Bool :=
  c = 'i' || c = 'v' || c = 'x' || c = 'l' || c = 'c'

/-- Greedy `(?:\.[0-9]+)*`, fuelled (fuel `≥` input length suffices). -/
def dottedTailF : Nat → List Char → List Char × List Char
  | 0, cs => ([], cs)
  | fuel + 1, cs =>
    match cs with
    | '.' :: rest =>
      (match rest with
       | d :: _ =>
         if isDigitChar d then
           let ds := rest.takeWhile isDigitChar
           let (more, r2) := dottedTailF fuel (rest.dropWhile isDigitChar)
           ('.' :: (ds ++ more), r2)
         else ([], cs)
       | [] => ([], cs))
    | _ => ([], cs)

/-- The label alternation `[0-9]+(?:\.[0-9]+)*|[a-zA-Z]\)|[ivxlc]+`, tried in
pattern order; returns the captured label and the rest. -/
def labelAlt (cs : List Char) : Option (List Char × List Char) :=
  match cs with
  | [] => none
  | c :: rest =>
    if isDigitChar c then
      let ds := cs.takeWhile isDigitChar
      let r := cs.dropWhile isDigitChar
      let (more, r2) := dottedTailF r.length r
      some (ds ++ more, r2)
    else if isAsciiLetter c then
      match rest with
      | ')' :: r2 => some ([c, ')'], r2)
      | _ =>
        if isRomanChar c then some (cs.takeWhile isRomanChar, cs.dropWhile isRomanChar)
        else none
    else none

/-- One attempt of the whole split pattern at the current position:
`(?:^|\n)` (the `^` branch only at position 0), the label, then `\s*`. -/
def splitMatchAt (cs : List Char) (atStart : Bool) : Option (List Char × List Char) :=
  match (if atStart then labelAlt cs else none) with
  | some (lab, r) => some (lab, r.dropWhile isPySpace)
  | none =>
    match cs with
    | '\n' :: cs2 => (labelAlt cs2).map fun p => (p.1, p.2.dropWhile isPySpace)
    | _ => none

/-- `re.split` scan: pieces interleaved with captured labels, exactly as the
Python list `matches`.  Fuel `≥ length + 1` suffices (every step consumes at
least one character). -/
def pySplitAux : Nat → List Char → Bool → List Char → List String
  | 0, cs, _, acc => [String.mk acc.reverse ++ String.mk cs]
  | fuel + 1, cs, atStart, acc =>
    match splitMatchAt cs atStart with
    | some (lab, rest) =>
      String.mk acc.reverse :: String.mk lab :: pySplitAux fuel rest false []
    | none =>
      match cs with
      | [] => [String.mk acc.reverse]
      | c :: cs2 => pySplitAux fuel cs2 false (c :: acc)

def pySplit (s : String) : List String :=
  pySplitAux (s.data.length + 1) s.data true []

/-- The pairing loop `for i in range(1, len(matches), 2)` applied to the
split list with `matches[0]` removed. -/
def subsecPairs : List String → List Subsec
  | [] => []
  | [t] => if pystrip t ≠ "" then [{ title := pystrip t, content := "" }] else []
  | t :: c :: rest =>
    (if pystrip t ≠ "" then [{ title := pystrip t, content := pystrip c }] else [])
      ++ subsecPairs rest

/-- `parse_small_subsections(text)`. -/
def parse_small_subsections (text : String) : List Subsec :=
  subsecPairs ((pySplit text).drop 1)

/-! ## `extract_section_text` -/

/-- The page indices `range(start_page, min(start_page + expand_pages, len(doc)))`. -/
def pageWindow (doc : Document) (start_page expand_pages : Nat) : List Nat :=
  List.range' start_page (min (start_page + expand_pages) doc.pages.length - start_page)

/-- Inner line loop of `extract_section_text`: either stop at a boundary
header, returning the stripped buffer (`Sum.inl`), or hand the grown buffer
to the next page (`Sum.inr`). -/
def extractLinesLoop (header : String) (page : Page) (i : Nat) :
    List String → String → Sum String String
  | [], acc => Sum.inr acc
  | line :: rest, acc =>
    if is_valid_header line page i && !(containsSubstr line header) then
      Sum.inl (pystrip acc)
    else extractLinesLoop header page i rest (acc ++ line ++ "\n")

/-- Outer page loop of `extract_section_text`. -/
def extractPagesLoop (doc : Document) (header : String) :
    List Nat → String → String
  | [], acc => pystrip acc
  | i :: rest, acc =>
    let page := doc.pages.getD i emptyPage
    match extractLinesLoop header page i (splitLines page.text) acc with
    | Sum.inl found => found
    | Sum.inr acc2 => extractPagesLoop doc header rest acc2

/-- `extract_section_text(doc, start_page, header, expand_pages)`. -/
def extract_section_text (doc : Document) (start_page : Nat) (header : String)
    (expand_pages : Nat) : String :=
  extractPagesLoop doc header (pageWindow doc start_page expand_pages) ""

/-! ## `extract_toc_and_special_sections` -/

/-- First pass: one `Section` per outline entry. -/
def tocPass (doc : Document) (expand_pages : Nat) : List Section :=
  doc.toc.map fun e =>
    let txt := extract_section_text doc (e.page - 1) e.title expand_pages
    { title := e.title, level := some e.level, page := e.page, text := txt,
      subsections := parse_small_subsections txt }

/-- One line of the second (inline scan) pass; the state is the seen-set of
header strings and the sections accumulated so far. -/
def scanStep (doc : Document) (expand_pages : Nat) (pnum : Nat) (page : Page)
    (st : List String × List Section) (line : String) :
    List String × List Section :=
  if is_valid_header line page pnum then
    let header := pystrip line
    if st.1.contains header then st
    else
      let txt := extract_section_text doc pnum header expand_pages
      (header :: st.1,
       st.2 ++ [{ title := header, level := none, page := pnum + 1, text := txt,
                  subsections := parse_small_subsections txt }])
  else st

/-- The whole inline scan, from a given initial state. -/
def scanFold (doc : Document) (expand_pages : Nat)
    (st0 : List String × List Section) : List String × List Section :=
  (List.range doc.pages.length).foldl
    (fun st pnum =>
      let page := doc.pages.getD pnum emptyPage
      (splitLines page.text).foldl (scanStep doc expand_pages pnum page) st)
    st0

/-- Second pass: the scan-derived sections. -/
def scanPass (doc : Document) (expand_pages : Nat) : List Section :=
  (scanFold doc expand_pages ([], [])).2

/-! ## `parse_ecar_sections` -/

/-- Build one emitted ECAR section from the open section's title, the page
number current when it is closed, and the accumulated lines. -/
def mkEcarSection (title : String) (pg : Nat) (curText : List String) : Section :=
  let txt := String.intercalate "\n" curText
  { title := title, level := none, page := pg, text := txt,
    subsections := parse_small_subsections txt }

/-- One line of `parse_ecar_sections`; the state is
`(sections, current_section, current_text)`. -/
def ecarLineStep (pnum : Nat) (st : List Section × Option String × List String)
    (line0 : String) : List Section × Option String × List String :=
  let line := pystrip line0
  if line = "" then st
  else if sectionPatternMatch line then
    match st.2.1 with
    | some t => (st.1 ++ [mkEcarSection t pnum st.2.2], some line, [])
    | none => (st.1, some line, [])
  else (st.1, st.2.1, st.2.2 ++ [line])

/-- The double loop of `parse_ecar_sections`, from a given initial state. -/
def ecarFoldPages (doc : Document) (st0 : List Section × Option String × List String) :
    List Section × Option String × List String :=
  (List.range doc.pages.length).foldl
    (fun st pnum =>
      (splitLines (doc.pages.getD pnum emptyPage).text).foldl (ecarLineStep pnum) st)
    st0

/-- `parse_ecar_sections(doc)`; the trailing emit uses the final value of
the loop variable `page_num`, i.e. `len(doc) - 1`. -/
def parse_ecar_sections (doc : Document) : List Section :=
  let st := ecarFoldPages doc ([], none, [])
  match st.2.1 with
  | some t => st.1 ++ [mkEcarSection t (doc.pages.length - 1) st.2.2]
  | none => st.1

/-! ## Assembly: `sections.sort(key=lambda x: x['page'])`

Python `list.sort` is a stable ascending sort; any stable ascending sort
computes the same list, so it is modelled by stable insertion: an element is
inserted before the first strictly-later position, i.e. after every
already-placed element with a smaller-or-equal page. -/

def insertByPage (s : Section) : List Section → List Section
  | [] => [s]
  | t :: ts => if s.page ≤ t.page then s :: t :: ts else t :: insertByPage s ts

def sortByPage : List Section → List Section
  | [] => []
  | s :: ss => insertByPage s (sortByPage ss)

/-- The concatenated section lists, in discovery order, before the final sort. -/
def preSortSections (doc : Document) (expand_pages : Nat) : List Section :=
  if detect_document_type doc = DocType.ecar then parse_ecar_sections doc
  else tocPass doc expand_pages ++ scanPass doc expand_pages

/-- `extract_toc_and_special_sections(pdf_path, expand_pages=8)`, on an
already-opened document. -/
def extract_toc_and_special_sections (doc : Document) (expand_pages : Nat := 8) :
    List Section :=
  sortByPage (preSortSections doc expand_pages)

/-! ## Spec-side characterisations -/

/-- All lines the boundary extractor can scan, page index attached, in scan
order. -/
def windowLines (doc : Document) (start_page expand_pages : Nat) :
    List (Nat × String) :=
  (pageWindow doc start_page expand_pages).flatMap fun i =>
    (splitLines (doc.pages.getD i emptyPage).text).map fun l => (i, l)

/-- The stop condition of the boundary extractor at one scanned line: the
line validates as a header and does not contain `header` as a substring. -/
def isBoundary (doc : Document) (header : String) (q : Nat × String) : Bool :=
  is_valid_header q.2 (doc.pages.getD q.1 emptyPage) q.1
    && !(containsSubstr q.2 header)

/-- Concatenation of lines with the `"\n"` the accumulator appends to each. -/
def lineJoin : List String → String
  | [] => ""
  | l :: ls => l ++ "\n" ++ lineJoin ls

/-- All `(page index, raw line)` pairs of the document, in parse order. -/
def ecarStream (doc : Document) : List (Nat × String) :=
  (List.range doc.pages.length).flatMap fun p =>
    (splitLines (doc.pages.getD p emptyPage).text).map fun l => (p, l)

/-- The header lines of a line stream: stripped, nonempty, matching the ECAR
section pattern; paired with their page index. -/
def streamHeaders (str : List (Nat × String)) : List (String × Nat) :=
  str.filterMap fun q =>
    let l := pystrip q.2
    if l ≠ "" && sectionPatternMatch l then some (l, q.1) else none

/-- The ECAR header lines of a document with the pages they occur on. -/
def ecarHeaders (doc : Document) : List (String × Nat) :=
  streamHeaders (ecarStream doc)

/-! ## Claim C1: subsection decomposition of the round-trip example -/

/-- C1, counterexample: on the round-trip example the decomposer does yield
labels "1", "1.1", "1.2" in order, but the first subsection's content is
". Intro text" (the dot after the bare label "1" is not consumed by the
split pattern), not "Intro text"; the claimed output is therefore not the
one produced. -/
theorem c1_counterexample :
    parse_small_subsections "1. Intro text\n1.1 Detail a\n1.2 Detail b" ≠
      [{ title := "1", content := "Intro text" },
       { title := "1.1", content := "Detail a" },
       { title := "1.2", content := "Detail b" }] := by decide

/-- C1, amended: the decomposer returns exactly three subsections in order
with labels "1", "1.1", "1.2" and contents ". Intro text", "Detail a",
"Detail b". -/
theorem c1_subsections_contents :
    parse_small_subsections "1. Intro text\n1.1 Detail a\n1.2 Detail b" =
      [{ title := "1", content := ". Intro text" },
       { title := "1.1", content := "Detail a" },
       { title := "1.2", content := "Detail b" }] := by decide

/-! ## Claim C10: a plain word of roman-numeral letters becomes a label -/

/-- C10: on "civil aviation rules" the decomposer treats the word "civil"
(made only of the characters i, v, x, l, c) as a roman-numeral label and
returns exactly one subsection with label "civil" and content
"aviation rules". -/
theorem c10_roman_word_label :
    parse_small_subsections "civil aviation rules" =
      [{ title := "civil", content := "aviation rules" }] := by decide

/-! ## Claim C2: which line shapes the header validator accepts -/

/-- C2, counterexample: the line "45.1 Title" is nonempty and is not of the
eight-codes-plus-numeric-path shape, yet the validator accepts it (on any
page): the ECAR numeric pattern is tested first and short-circuits to
acceptance, in every dialect. -/
theorem c2_counterexample :
    pystrip "45.1 Title" ≠ "" ∧ matchesIosaHeader "45.1 Title" = false ∧
      is_valid_header "45.1 Title" emptyPage 0 = true := by decide

/-- C2, amended: the validator accepts a line only if its trimmed text
matches the ECAR numeric-header pattern (accepted before any range or bold
check) or the entire trimmed line is one of the eight fixed codes, optional
spaces, and a dot-separated integer path; every line matching neither is
rejected. -/
theorem c2_header_shapes (line : String) (page : Page) (page_num : Nat)
    (h : is_valid_header line page page_num = true) :
    matchesEcarHeader (pystrip line) = true ∨ matchesIosaHeader (pystrip line) = true := by
  simp only [is_valid_header] at h
  by_cases h1 : pystrip line = ""
  · simp [h1] at h
  · by_cases h2 : matchesEcarHeader (pystrip line) = true
    · exact Or.inl h2
    · right
      rw [if_neg h1, if_neg h2] at h
      cases hc : iosaCodeOf (pystrip line) with
      | none => rw [hc] at h; simp at h
      | some c => simp [matchesIosaHeader, hc]

/-- C2 witness: the amended theorem applied to the accepted line
"45.1 Title". -/
theorem c2_header_shapes_witness :
    matchesEcarHeader (pystrip "45.1 Title") = true ∨
      matchesIosaHeader (pystrip "45.1 Title") = true :=
  c2_header_shapes "45.1 Title" emptyPage 0 (by decide)

/-! ## Claim C5: page-range gating of "ORG 1.1" -/

/-- C5: the validator rejects "ORG 1.1" on 1-based page 10 (0-based index 9)
even when a bold span with that exact trimmed text exists on the page, since
10 is outside ORG's configured range 52–114; it accepts the same line on
1-based page 60 (0-based 59) when such a bold span exists there. -/
theorem c5_page_range_gate (p10 p60 : Page)
    (h10 : hasBoldSpan p10 "ORG 1.1" = true) (h60 : hasBoldSpan p60 "ORG 1.1" = true) :
    is_valid_header "ORG 1.1" p10 9 = false ∧ is_valid_header "ORG 1.1" p60 59 = true :=
  ⟨rfl, h60⟩

/-- C5 witness: a concrete page carrying one bold span "ORG 1.1"
(flags 20 has bit 2 set). -/
theorem c5_page_range_gate_witness :
    is_valid_header "ORG 1.1"
        { text := "", blocks := [{ lines := [{ spans := [{ text := "ORG 1.1", flags := 20 }] }] }] } 9 = false ∧
      is_valid_header "ORG 1.1"
        { text := "", blocks := [{ lines := [{ spans := [{ text := "ORG 1.1", flags := 20 }] }] }] } 59 = true :=
  c5_page_range_gate _ _ (by decide) (by decide)

/-! ## Claim C6: style gating of "FLT 2.3" -/

/-- C6: a line exactly equal to "FLT 2.3", on any 0-based page index whose
1-based number lies inside FLT's configured range 114–299, is rejected by
the validator whenever no span on the page has that exact trimmed text with
the bold flag set. -/
theorem c6_style_gate (page_num : Nat) (hlo : 114 ≤ page_num + 1)
    (hhi : page_num + 1 ≤ 299) (p : Page) (hb : hasBoldSpan p "FLT 2.3" = false) :
    is_valid_header "FLT 2.3" p page_num = false := by
  have hstep : is_valid_header "FLT 2.3" p page_num =
      if 114 ≤ page_num + 1 && page_num + 1 ≤ 299 then hasBoldSpan p "FLT 2.3"
      else false := rfl
  rw [hstep, if_pos (by simp only [Bool.and_eq_true, decide_eq_true_eq]; exact ⟨hlo, hhi⟩)]
  exact hb

/-- C6 witness: "FLT 2.3" on 0-based page index 149 (1-based 150, in range)
with a page that has no spans at all. -/
theorem c6_style_gate_witness :
    is_valid_header "FLT 2.3" emptyPage 149 = false :=
  c6_style_gate 149 (by decide) (by decide) emptyPage (by decide)

/-! ## Claim C4: the boundary extractor as a takeWhile over scanned lines -/

theorem lineJoin_append (a b : List String) :
    lineJoin (a ++ b) = lineJoin a ++ lineJoin b := by
  induction a with
  | nil => simp [lineJoin]
  | cons l ls ih => simp [lineJoin, ih, String.append_assoc]

theorem extractLinesLoop_eq (header : String) (page : Page) (i : Nat)
    (ls : List String) (acc : String) :
    extractLinesLoop header page i ls acc =
      (if (ls.takeWhile fun l =>
            !(is_valid_header l page i && !(containsSubstr l header))).length = ls.length
       then Sum.inr (acc ++ lineJoin ls)
       else Sum.inl (pystrip (acc ++ lineJoin (ls.takeWhile fun l =>
              !(is_valid_header l page i && !(containsSubstr l header)))))) := by
  induction ls generalizing acc with
  | nil => simp [extractLinesLoop, lineJoin]
  | cons l ls ih =>
    by_cases hstop : (is_valid_header l page i && !(containsSubstr l header)) = true
    · have hp : (!(is_valid_header l page i && !(containsSubstr l header))) = false := by
        simp [hstop]
      have h1 : ((l :: ls).takeWhile fun l =>
          !(is_valid_header l page i && !(containsSubstr l header))) = [] := by
        rw [List.takeWhile_cons, if_neg (by simp [hp])]
      rw [extractLinesLoop, if_pos hstop, h1]
      rw [if_neg (by simp)]
      simp [lineJoin, String.append_empty]
    · have hp : (!(is_valid_header l page i && !(containsSubstr l header))) = true := by
        simp [hstop]
      have h1 : ((l :: ls).takeWhile fun l =>
          !(is_valid_header l page i && !(containsSubstr l header))) =
          l :: (ls.takeWhile fun l =>
            !(is_valid_header l page i && !(containsSubstr l header))) := by
        rw [List.takeWhile_cons, if_pos hp]
      rw [extractLinesLoop, if_neg hstop, ih, h1]
      simp only [List.length_cons, Nat.add_right_cancel_iff, lineJoin, String.append_assoc]

theorem extractPagesLoop_eq (doc : Document) (header : String) (idxs : List Nat)
    (acc : String) :
    extractPagesLoop doc header idxs acc =
      pystrip (acc ++ lineJoin (((idxs.flatMap fun i =>
        (splitLines (doc.pages.getD i emptyPage).text).map fun l => (i, l)).takeWhile
          fun q => !(isBoundary doc header q)).map Prod.snd)) := by
  induction idxs generalizing acc with
  | nil => simp [extractPagesLoop, lineJoin, String.append_empty]
  | cons i rest ih =>
    have hcomp : ((fun q => !(isBoundary doc header q)) ∘ (fun l => (i, l))) =
        (fun l => !(is_valid_header l (doc.pages.getD i emptyPage) i
          && !(containsSubstr l header))) := by
      funext l; simp [isBoundary]
    have htm : ((splitLines (doc.pages.getD i emptyPage).text).map (fun l => (i, l))).takeWhile
        (fun q => !(isBoundary doc header q)) =
        ((splitLines (doc.pages.getD i emptyPage).text).takeWhile
          (fun l => !(is_valid_header l (doc.pages.getD i emptyPage) i
            && !(containsSubstr l header)))).map (fun l => (i, l)) := by
      rw [List.takeWhile_map, hcomp]
    have hsnd : ∀ (xs : List String), (xs.map (fun l => ((i, l) : Nat × String))).map Prod.snd = xs := by
      intro xs; rw [List.map_map]; exact List.map_id xs
    rw [extractPagesLoop, extractLinesLoop_eq]
    by_cases hall : (((splitLines (doc.pages.getD i emptyPage).text).takeWhile fun l =>
        !(is_valid_header l (doc.pages.getD i emptyPage) i && !(containsSubstr l header))).length
        = (splitLines (doc.pages.getD i emptyPage).text).length)
    · rw [if_pos hall]
      show extractPagesLoop doc header rest _ = _
      rw [ih, List.flatMap_cons, List.takeWhile_append, if_pos (by
        rw [htm, List.length_map, List.length_map]; exact hall)]
      rw [List.map_append, lineJoin_append, hsnd, String.append_assoc]
    · rw [if_neg hall]
      show pystrip _ = _
      rw [List.flatMap_cons, List.takeWhile_append, if_neg (by
        rw [htm, List.length_map, List.length_map]; exact hall)]
      rw [htm, hsnd]

/-- C4: for every document, start page, header text and page budget, the
boundary extractor returns — trimmed of leading and trailing whitespace —
the newline-joined concatenation of exactly the scanned lines strictly
before the first line that validates as a header and does not contain the
header text as a substring (that line excluded); when no such line occurs
in the budgeted window it returns everything scanned, trimmed. -/
theorem c4_boundary_extraction (doc : Document) (start_page : Nat) (header : String)
    (expand_pages : Nat) :
    extract_section_text doc start_page header expand_pages =
      pystrip (lineJoin (((windowLines doc start_page expand_pages).takeWhile
        (fun q => !(isBoundary doc header q))).map Prod.snd)) := by
  rw [extract_section_text, extractPagesLoop_eq, windowLines, String.empty_append]

/-! ## Claim C7: the inline scan never emits two sections with one title -/

/-- Invariant of the inline scan state: the emitted titles are distinct and
every emitted title is in the seen-set. -/
def ScanInv (st : List String × List Section) : Prop :=
  (st.2.map Section.title).Nodup ∧ ∀ t ∈ st.2.map Section.title, t ∈ st.1

theorem scanStep_inv (doc : Document) (expand_pages pnum : Nat) (page : Page)
    (st : List String × List Section) (line : String) (h : ScanInv st) :
    ScanInv (scanStep doc expand_pages pnum page st line) := by
  unfold scanStep
  by_cases hv : is_valid_header line page pnum = true
  · rw [if_pos hv]
    by_cases hc : st.1.contains (pystrip line) = true
    · rw [if_pos hc]; exact h
    · rw [if_neg hc]
      have hnotmem : pystrip line ∉ st.2.map Section.title := fun hmem =>
        hc (List.elem_iff.mpr (h.2 _ hmem))
      refine ⟨?_, ?_⟩
      · rw [List.map_append]
        rw [List.nodup_append]
        refine ⟨h.1, List.nodup_singleton _, ?_⟩
        intro t ht ht'
        simp only [List.map_cons, List.map_nil, List.mem_singleton] at ht'
        exact hnotmem (ht' ▸ ht)
      · intro t ht
        rw [List.map_append] at ht
        rcases List.mem_append.mp ht with h1 | h1
        · exact List.mem_cons_of_mem _ (h.2 _ h1)
        · simp only [List.map_cons, List.map_nil, List.mem_singleton] at h1
          exact h1 ▸ List.mem_cons_self _ _
  · rw [if_neg hv]; exact h

theorem scanFold_inv (doc : Document) (expand_pages : Nat)
    (st0 : List String × List Section) (h : ScanInv st0) :
    ScanInv (scanFold doc expand_pages st0) := by
  unfold scanFold
  refine List.foldlRecOn _ _ _ h ?_
  intro st hst pnum _
  refine List.foldlRecOn _ _ _ hst ?_
  intro st' hst' line _
  exact scanStep_inv doc expand_pages pnum (doc.pages.getD pnum emptyPage) st' line hst'

/-- C7: in the inline scan pass the seen-set keyed by exact trimmed header
text guarantees that the scan-derived sections of a (nonempty) document
carry pairwise distinct titles: at most one Section per trimmed title. -/
theorem c7_scan_dedup (doc : Document) (expand_pages : Nat) (hne : doc.pages ≠ []) :
    ((scanPass doc expand_pages).map Section.title).Nodup :=
  (scanFold_inv doc expand_pages ([], []) ⟨List.nodup_nil, by simp⟩).1

/-- C7 witness: a concrete one-page document. -/
theorem c7_scan_dedup_witness :
    ((scanPass { pages := [emptyPage], toc := [] } 8).map Section.title).Nodup :=
  c7_scan_dedup { pages := [emptyPage], toc := [] } 8 (by simp)

/-! ## Claim C8: the assembler is a stable ascending sort by page -/

theorem mem_insertByPage {x s : Section} {l : List Section} :
    x ∈ insertByPage s l ↔ x = s ∨ x ∈ l := by
  induction l with
  | nil => simp [insertByPage]
  | cons t ts ih =>
    by_cases hle : s.page ≤ t.page
    · rw [insertByPage, if_pos hle]
      simp [List.mem_cons]
    · rw [insertByPage, if_neg hle]
      simp only [List.mem_cons, ih]
      tauto

theorem sorted_insertByPage (s : Section) (l : List Section)
    (h : List.Sorted (fun a b : Section => a.page ≤ b.page) l) :
    List.Sorted (fun a b : Section => a.page ≤ b.page) (insertByPage s l) := by
  induction l with
  | nil => simp [insertByPage]
  | cons t ts ih =>
    rw [List.sorted_cons] at h
    by_cases hle : s.page ≤ t.page
    · rw [insertByPage, if_pos hle, List.sorted_cons]
      refine ⟨?_, List.sorted_cons.mpr h⟩
      intro b hb
      rcases List.mem_cons.mp hb with rfl | hb'
      · exact hle
      · exact le_trans hle (h.1 b hb')
    · rw [insertByPage, if_neg hle, List.sorted_cons]
      refine ⟨?_, ih h.2⟩
      intro b hb
      rcases mem_insertByPage.mp hb with rfl | hb'
      · exact le_of_lt (lt_of_not_le hle)
      · exact h.1 b hb'

theorem sorted_sortByPage (l : List Section) :
    List.Sorted (fun a b : Section => a.page ≤ b.page) (sortByPage l) := by
  induction l with
  | nil => simp [sortByPage]
  | cons s ss ih => exact sorted_insertByPage s (sortByPage ss) ih

theorem filter_insertByPage (s : Section) (l : List Section) (p : Nat) :
    (insertByPage s l).filter (fun t => t.page == p) =
      (s :: l).filter (fun t => t.page == p) := by
  induction l with
  | nil => rfl
  | cons t ts ih =>
    by_cases hle : s.page ≤ t.page
    · rw [insertByPage, if_pos hle]
    · rw [insertByPage, if_neg hle]
      simp only [List.filter_cons]
      rw [ih]
      simp only [List.filter_cons]
      by_cases hsp : (s.page == p) = true
      · have hsp' : s.page = p := by simpa using hsp
        have htp : (t.page == p) = false := by
          have hlt : t.page < s.page := lt_of_not_le hle
          simp only [beq_eq_false_iff_ne, ne_eq]
          omega
        simp [hsp, htp]
      · have hspf : (s.page == p) = false := by
          simpa using hsp
        simp [hspf]

theorem filter_sortByPage (l : List Section) (p : Nat) :
    (sortByPage l).filter (fun t => t.page == p) = l.filter (fun t => t.page == p) := by
  induction l with
  | nil => rfl
  | cons s ss ih =>
    rw [sortByPage, filter_insertByPage, List.filter_cons, List.filter_cons (x := s), ih]

/-- C8: for every (nonempty) document the engine entry point returns the
pre-sort discovery list stably sorted ascending by page number: the output
is sorted by page, and for every page number the output's sections with
that page are exactly the discovery-order ones (outline pass before scan
pass), in their original order. -/
theorem c8_stable_sort (doc : Document) (expand_pages : Nat) (hne : doc.pages ≠ []) :
    List.Sorted (fun a b : Section => a.page ≤ b.page)
        (extract_toc_and_special_sections doc expand_pages) ∧
      ∀ p : Nat, (extract_toc_and_special_sections doc expand_pages).filter
          (fun s => s.page == p) =
        (preSortSections doc expand_pages).filter (fun s => s.page == p) :=
  ⟨sorted_sortByPage _, fun p => filter_sortByPage _ p⟩

/-- C8 witness: a concrete one-page document. -/
theorem c8_stable_sort_witness :
    List.Sorted (fun a b : Section => a.page ≤ b.page)
        (extract_toc_and_special_sections { pages := [emptyPage], toc := [] } 8) ∧
      ∀ p : Nat, (extract_toc_and_special_sections { pages := [emptyPage], toc := [] } 8).filter
          (fun s => s.page == p) =
        (preSortSections { pages := [emptyPage], toc := [] } 8).filter (fun s => s.page == p) :=
  c8_stable_sort { pages := [emptyPage], toc := [] } 8 (by simp)

/-! ## Claim C9: which page each ECAR section records -/

/-- View of the optional open-section title as a list. -/
def optToList : Option String → List String
  | none => []
  | some t => [t]

theorem ecarFoldPages_eq_stream (doc : Document)
    (st0 : List Section × Option String × List String) :
    ecarFoldPages doc st0 =
      (ecarStream doc).foldl (fun st q => ecarLineStep q.1 st q.2) st0 := by
  unfold ecarFoldPages ecarStream
  generalize List.range doc.pages.length = idxs
  induction idxs generalizing st0 with
  | nil => rfl
  | cons i rest ih =>
    rw [List.foldl_cons, List.flatMap_cons, List.foldl_append, List.foldl_map, ih]

theorem streamHeaders_cons (q : Nat × String) (str : List (Nat × String)) :
    streamHeaders (q :: str) =
      (if (pystrip q.2 ≠ "" && sectionPatternMatch (pystrip q.2)) = true
       then [(pystrip q.2, q.1)] else []) ++ streamHeaders str := by
  rw [streamHeaders, List.filterMap_cons]
  by_cases h : (pystrip q.2 ≠ "" && sectionPatternMatch (pystrip q.2)) = true
  · simp only [if_pos h]
    rfl
  · simp only [if_neg h, List.nil_append]
    rfl

theorem ecarStreamFold_spec (str : List (Nat × String)) :
    ∀ (secs : List Section) (cur : Option String) (txt : List String),
      ((str.foldl (fun st q => ecarLineStep q.1 st q.2) (secs, cur, txt)).1.map Section.title
          = secs.map Section.title
            ++ (optToList cur ++ (streamHeaders str).map Prod.fst).dropLast)
      ∧ ((str.foldl (fun st q => ecarLineStep q.1 st q.2) (secs, cur, txt)).1.map Section.page
          = secs.map Section.page
            ++ ((streamHeaders str).map Prod.snd).drop (if cur.isNone then 1 else 0))
      ∧ (str.foldl (fun st q => ecarLineStep q.1 st q.2) (secs, cur, txt)).2.1
          = (optToList cur ++ (streamHeaders str).map Prod.fst).getLast? := by
  induction str with
  | nil =>
    intro secs cur txt
    cases cur with
    | none => simp [streamHeaders, optToList]
    | some t => simp [streamHeaders, optToList]
  | cons q str ih =>
    intro secs cur txt
    rw [List.foldl_cons, streamHeaders_cons]
    by_cases hemp : pystrip q.2 = ""
    · have hstep : ecarLineStep q.1 (secs, cur, txt) q.2 = (secs, cur, txt) := by
        rw [ecarLineStep]
        simp [hemp]
      have hcond : (pystrip q.2 ≠ "" && sectionPatternMatch (pystrip q.2)) = false := by
        simp [hemp]
      rw [hstep, hcond]
      simpa using ih secs cur txt
    · by_cases hpat : sectionPatternMatch (pystrip q.2) = true
      · have hcond : (pystrip q.2 ≠ "" && sectionPatternMatch (pystrip q.2)) = true := by
          simp [hemp, hpat]
        rw [hcond, if_pos rfl]
        cases cur with
        | none =>
          have hstep : ecarLineStep q.1 (secs, none, txt) q.2 =
              (secs, some (pystrip q.2), []) := by
            rw [ecarLineStep]
            simp [hemp, hpat]
          rw [hstep]
          obtain ⟨ih1, ih2, ih3⟩ := ih secs (some (pystrip q.2)) []
          exact ⟨ih1, ih2, ih3⟩
        | some t0 =>
          have hstep : ecarLineStep q.1 (secs, some t0, txt) q.2 =
              (secs ++ [mkEcarSection t0 q.1 txt], some (pystrip q.2), []) := by
            rw [ecarLineStep]
            simp [hemp, hpat]
          rw [hstep]
          obtain ⟨ih1, ih2, ih3⟩ := ih (secs ++ [mkEcarSection t0 q.1 txt]) (some (pystrip q.2)) []
          refine ⟨?_, ?_, ?_⟩
          · rw [ih1, List.map_append, List.append_assoc]
            congr 1
          · rw [ih2, List.map_append, List.append_assoc]
            congr 1
          · rw [ih3]
            show (pystrip q.2 :: (streamHeaders str).map Prod.fst).getLast? =
              (t0 :: pystrip q.2 :: (streamHeaders str).map Prod.fst).getLast?
            rw [List.getLast?_cons_cons]
      · have hcond : (pystrip q.2 ≠ "" && sectionPatternMatch (pystrip q.2)) = false := by
          simp [hemp, hpat]
        have hstep : ecarLineStep q.1 (secs, cur, txt) q.2 =
            (secs, cur, txt ++ [pystrip q.2]) := by
          rw [ecarLineStep]
          simp [hemp, hpat]
        rw [hstep, hcond]
        simpa using ih secs cur (txt ++ [pystrip q.2])

theorem parse_ecar_eq_none (doc : Document)
    (h : ((ecarStream doc).foldl (fun st q => ecarLineStep q.1 st q.2)
        ([], none, [])).2.1 = none) :
    parse_ecar_sections doc =
      ((ecarStream doc).foldl (fun st q => ecarLineStep q.1 st q.2) ([], none, [])).1 := by
  show (match (ecarFoldPages doc ([], none, [])).2.1 with
        | some t => (ecarFoldPages doc ([], none, [])).1
            ++ [mkEcarSection t (doc.pages.length - 1) ((ecarFoldPages doc ([], none, [])).2.2)]
        | none => (ecarFoldPages doc ([], none, [])).1) = _
  rw [ecarFoldPages_eq_stream, h]

theorem parse_ecar_eq_some (doc : Document) (t : String)
    (h : ((ecarStream doc).foldl (fun st q => ecarLineStep q.1 st q.2)
        ([], none, [])).2.1 = some t) :
    parse_ecar_sections doc =
      ((ecarStream doc).foldl (fun st q => ecarLineStep q.1 st q.2) ([], none, [])).1
        ++ [mkEcarSection t (doc.pages.length - 1)
              (((ecarStream doc).foldl (fun st q => ecarLineStep q.1 st q.2)
                ([], none, [])).2.2)] := by
  show (match (ecarFoldPages doc ([], none, [])).2.1 with
        | some t => (ecarFoldPages doc ([], none, [])).1
            ++ [mkEcarSection t (doc.pages.length - 1) ((ecarFoldPages doc ([], none, [])).2.2)]
        | none => (ecarFoldPages doc ([], none, [])).1) = _
  rw [ecarFoldPages_eq_stream, h]

/-- Shape of the ECAR pass output: titles are the header lines in order,
and the page list is the headers' page list shifted left by one, closed by
the last 0-based page index. -/
theorem ecar_sections_shape (doc : Document) :
    (parse_ecar_sections doc).map Section.title = (ecarHeaders doc).map Prod.fst ∧
      (parse_ecar_sections doc).map Section.page =
        ((ecarHeaders doc).map Prod.snd).drop 1 ++
          (if ecarHeaders doc = [] then [] else [doc.pages.length - 1]) := by
  obtain ⟨h1, h2, h3⟩ := ecarStreamFold_spec (ecarStream doc) [] none []
  rw [show ecarHeaders doc = streamHeaders (ecarStream doc) from rfl]
  cases hhs : streamHeaders (ecarStream doc) with
  | nil =>
    rw [hhs] at h1 h2 h3
    rw [parse_ecar_eq_none doc h3, h1, h2]
    exact ⟨rfl, rfl⟩
  | cons hd tl =>
    rw [hhs] at h1 h2 h3
    have hne : ((hd :: tl).map Prod.fst) ≠ [] := by simp
    have hlast : ((ecarStream doc).foldl (fun st q => ecarLineStep q.1 st q.2)
        ([], none, [])).2.1 = some (((hd :: tl).map Prod.fst).getLast hne) := by
      rw [h3]
      show ((hd :: tl).map Prod.fst).getLast? = _
      rw [List.getLast?_eq_getLast _ hne]
    rw [parse_ecar_eq_some doc _ hlast]
    constructor
    · rw [List.map_append, h1]
      show ((hd :: tl).map Prod.fst).dropLast ++ [((hd :: tl).map Prod.fst).getLast hne] =
        (hd :: tl).map Prod.fst
      exact List.dropLast_append_getLast hne
    · rw [List.map_append, h2, if_neg (List.cons_ne_nil hd tl)]
      rfl

/-- C9: in ECAR documents the page recorded on each emitted Section is the
0-based index of the page where the parser met the next section's header
line — the sections' page list is the headers' page list shifted left by
one — and the final open section records the 0-based index of the last
page of the document (not the page of its own title line); the titles are
the header lines in order. -/
theorem c9_ecar_page_shift (doc : Document) :
    (parse_ecar_sections doc).map Section.title = (ecarHeaders doc).map Prod.fst ∧
      (parse_ecar_sections doc).map Section.page =
        ((ecarHeaders doc).map Prod.snd).drop 1 ++
          (if ecarHeaders doc = [] then [] else [doc.pages.length - 1]) :=
  ecar_sections_shape doc

/-! ## Claim C3: page numbers of returned sections vs the page count -/

theorem mem_sortByPage {x : Section} {l : List Section} :
    x ∈ sortByPage l ↔ x ∈ l := by
  induction l with
  | nil => simp [sortByPage]
  | cons s ss ih =>
    rw [sortByPage, mem_insertByPage, ih, List.mem_cons]

/-- Every header's page index in the ECAR header list is a real 0-based
page index of the document. -/
theorem ecarHeaders_page_lt (doc : Document) :
    ∀ x ∈ ecarHeaders doc, x.2 < doc.pages.length := by
  intro x hx
  obtain ⟨q, hq, hfx⟩ := List.mem_filterMap.mp hx
  obtain ⟨i, hi, hqi⟩ := List.mem_flatMap.mp hq
  obtain ⟨l, _, hql⟩ := List.mem_map.mp hqi
  have hq1 : q.1 = i := by rw [← hql]
  have hx2 : x.2 = q.1 := by
    by_cases hc : (pystrip q.2 ≠ "" && sectionPatternMatch (pystrip q.2)) = true
    · rw [if_pos hc] at hfx
      cases hfx
      rfl
    · rw [if_neg hc] at hfx
      cases hfx
  rw [hx2, hq1]
  exact List.mem_range.mp hi

theorem parse_ecar_page_lt (doc : Document) (hne : doc.pages ≠ []) :
    ∀ s ∈ parse_ecar_sections doc, s.page < doc.pages.length := by
  intro s hs
  have hpg : s.page ∈ (parse_ecar_sections doc).map Section.page :=
    List.mem_map.mpr ⟨s, hs, rfl⟩
  rw [(ecar_sections_shape doc).2] at hpg
  rcases List.mem_append.mp hpg with h1 | h1
  · have h2 : s.page ∈ (ecarHeaders doc).map Prod.snd := List.mem_of_mem_drop h1
    obtain ⟨x, hx, hxe⟩ := List.mem_map.mp h2
    rw [← hxe]
    exact ecarHeaders_page_lt doc x hx
  · by_cases hh : ecarHeaders doc = []
    · rw [if_pos hh] at h1
      cases h1
    · rw [if_neg hh] at h1
      have : s.page = doc.pages.length - 1 := List.mem_singleton.mp h1
      rw [this]
      have hpos : 0 < doc.pages.length := List.length_pos.mpr hne
      omega

/-- Invariant of the inline scan state for C3: every accumulated section
has a 1-based page within the page count. -/
def ScanPageInv (doc : Document) (st : List String × List Section) : Prop :=
  ∀ s ∈ st.2, 1 ≤ s.page ∧ s.page ≤ doc.pages.length

theorem scanFold_pages (doc : Document) (expand_pages : Nat)
    (st0 : List String × List Section) (h : ScanPageInv doc st0) :
    ScanPageInv doc (scanFold doc expand_pages st0) := by
  unfold scanFold
  refine List.foldlRecOn _ _ _ h ?_
  intro st hst pnum hpnum
  refine List.foldlRecOn _ _ _ hst ?_
  intro st' hst' line _
  unfold ScanPageInv at hst' ⊢
  unfold scanStep
  by_cases hv : is_valid_header line (doc.pages.getD pnum emptyPage) pnum = true
  · rw [if_pos hv]
    by_cases hc : st'.1.contains (pystrip line) = true
    · rw [if_pos hc]
      exact hst'
    · rw [if_neg hc]
      intro s hs
      rcases List.mem_append.mp hs with h1 | h1
      · exact hst' s h1
      · have hsp : s.page = pnum + 1 := by
          cases List.mem_singleton.mp h1
          rfl
        have hlt : pnum < doc.pages.length := List.mem_range.mp hpnum
        omega
  · rw [if_neg hv]
    exact hst'

/-- C3, counterexample: a one-page ECAR document whose page contains two
numeric headers.  Both returned sections record page 0, which is not within
the 1-based range 1..1. -/
theorem c3_counterexample :
    ¬ ∀ s ∈ extract_toc_and_special_sections
        { pages := [{ text := "ECAR Part 1\n1.1 Alpha\n1.2 Beta", blocks := [] }],
          toc := [] } 8,
        1 ≤ s.page ∧ s.page ≤
          (Document.mk [{ text := "ECAR Part 1\n1.1 Alpha\n1.2 Beta", blocks := [] }] []).pages.length := by
  decide

/-- C3, amended: for every nonempty document whose outline entries carry
1-based pages within the page count, every Section returned by the engine
entry point has a page within 1..pageCount in the Outline-Based and
RangeBound-Headers dialects; in the NumericHeaders (ECAR) dialect the
recorded pages are 0-based page indices, strictly below the page count but
possibly 0, so the claimed 1-based lower bound fails there. -/
theorem c3_pages_in_range (doc : Document) (expand_pages : Nat)
    (hne : doc.pages ≠ [])
    (htoc : ∀ e ∈ doc.toc, 1 ≤ e.page ∧ e.page ≤ doc.pages.length) :
    ∀ s ∈ extract_toc_and_special_sections doc expand_pages,
      (detect_document_type doc = DocType.ecar → s.page < doc.pages.length) ∧
        (detect_document_type doc ≠ DocType.ecar →
          1 ≤ s.page ∧ s.page ≤ doc.pages.length) := by
  intro s hs
  have hs' : s ∈ preSortSections doc expand_pages := by
    rw [extract_toc_and_special_sections] at hs
    exact mem_sortByPage.mp hs
  unfold preSortSections at hs'
  by_cases hd : detect_document_type doc = DocType.ecar
  · rw [if_pos hd] at hs'
    exact ⟨fun _ => parse_ecar_page_lt doc hne s hs', fun hcon => absurd hd hcon⟩
  · rw [if_neg hd] at hs'
    refine ⟨fun hcon => absurd hcon hd, fun _ => ?_⟩
    rcases List.mem_append.mp hs' with h1 | h1
    · obtain ⟨e, he, hes⟩ := List.mem_map.mp h1
      have : s.page = e.page := by rw [← hes]
      rw [this]
      exact htoc e he
    · exact scanFold_pages doc expand_pages ([], []) (by intro s hs; cases hs) s h1

/-- C3 witness: a one-page non-ECAR document whose outline has one entry on
page 1; the amended theorem is applied to the single Section it returns. -/
theorem c3_pages_in_range_witness :
    (detect_document_type
          { pages := [emptyPage], toc := [{ level := 1, title := "T", page := 1 }] } =
        DocType.ecar →
      ({ title := "T", level := some 1, page := 1, text := "",
          subsections := [] } : Section).page <
        (Document.mk [emptyPage] [{ level := 1, title := "T", page := 1 }]).pages.length) ∧
    (detect_document_type
          { pages := [emptyPage], toc := [{ level := 1, title := "T", page := 1 }] } ≠
        DocType.ecar →
      1 ≤ ({ title := "T", level := some 1, page := 1, text := "",
              subsections := [] } : Section).page ∧
        ({ title := "T", level := some 1, page := 1, text := "",
            subsections := [] } : Section).page ≤
          (Document.mk [emptyPage] [{ level := 1, title := "T", page := 1 }]).pages.length) :=
  c3_pages_in_range { pages := [emptyPage], toc := [{ level := 1, title := "T", page := 1 }] }
    8 (by decide) (by decide) _ (by decide)
